import Mathlib

/-!
Verification of the chat_p2p repository: a shallow embedding of the peer
node (src/backend/peer/node.py) and the tracker registry
(src/backend/tracker/main.py), with theorems settling the specification
claims about handshakes, the connection table, node lifecycle, send and
broadcast, and the registry operations.
-/

set_option autoImplicit false

namespace ChatP2P

/-! ## Python dict model

The connection table `self.connected_peers` is a Python dict.  We model it
as an association list with unique keys: assignment replaces in place for
an existing key and appends a new key (Python dicts preserve insertion
order), `del` removes the entry, lookup returns the stored value.
-/

/-- Membership test on an association list, mirroring `k in d`. -/
def dictContains {α β : Type} [DecidableEq α] : List (α × β) → α → Bool
  | [], _ => false
  | (k, _) :: rest, key => if k = key then true else dictContains rest key

/-- Lookup, mirroring `d[k]` on a dict with unique keys. -/
def dictGet {α β : Type} [DecidableEq α] : List (α × β) → α → Option β
  | [], _ => none
  | (k, v) :: rest, key => if k = key then some v else dictGet rest key

/-- Assignment `d[k] = v`: replace in place when the key exists, append otherwise. -/
def dictInsert {α β : Type} [DecidableEq α] : List (α × β) → α → β → List (α × β)
  | [], key, v => [(key, v)]
  | (k, w) :: rest, key, v =>
    if k = key then (key, v) :: rest else (k, w) :: dictInsert rest key v

/-- Deletion `del d[k]`. -/
def dictRemove {α β : Type} [DecidableEq α] : List (α × β) → α → List (α × β)
  | [], _ => []
  | (k, w) :: rest, key => if k = key then rest else (k, w) :: dictRemove rest key

/-- The keys of the table, in insertion order (mirrors `list(d.keys())`). -/
def dictKeys {α β : Type} (d : List (α × β)) : List α := d.map Prod.fst

/-- The dict invariant: no key occurs twice. -/
def keysUnique {α β : Type} [DecidableEq α] (d : List (α × β)) : Prop :=
  (dictKeys d).Nodup

instance {α β : Type} [DecidableEq α] (d : List (α × β)) :
    Decidable (keysUnique d) := by
  unfold keysUnique; infer_instance

/-! ## Peer node model (src/backend/peer/node.py)

A peer username key is `Option String`: `handshake.get("username")` yields
the Python value `None` when the field is missing, and that value is used
as a dict key unchanged, so keys are either a string or `None`.
A channel stands for one accepted or dialed socket (reader and writer pair);
we identify channels by a numeric id so that closing can be observed.
-/

/-- A socket channel (the reader/writer pair of one TCP connection). -/
structure Channel where
  id : Nat
deriving DecidableEq, Repr

/-- A connection-table key: a peer username, or Python `None` when the
handshake frame had no username field. -/
abbrev PKey := Option String

/-- The connection table `self.connected_peers`. -/
abbrev Table := List (PKey × Channel)

/-- Events delivered to the frontend callbacks. -/
inductive NodeEvent where
  | peerConnected (u : PKey)
  | peerDisconnected (u : PKey)
  | messageReceived (sender : PKey) (content : Option String) (timestamp : Option String)
deriving DecidableEq, Repr

/-- Outcome of decoding the first frame of an inbound connection:
`fail` when `json.loads` (or attribute access on a non-dict value) raises,
otherwise the values of `handshake.get("type")` and
`handshake.get("username")`, each `none` when the field is missing. -/
inductive FrameDecode where
  | fail
  | ok (type? : Option String) (username? : Option String)
deriving DecidableEq, Repr

/-- One read of the per-connection receive loop: end of stream
(zero-length read), or data whose JSON decode either raises (`frame none`)
or yields the `content` and `timestamp` fields of the message. -/
inductive ReadResult where
  | eof
  | frame (decoded : Option (Option String × Option String))
deriving DecidableEq, Repr

/-- Whether a read makes the receive loop exit: end of stream or a decode
failure. -/
def isTerminator : ReadResult → Bool
  | .eof => true
  | .frame none => true
  | .frame (some _) => false

/-- Result of running a node operation: the table afterwards, the events
emitted to the callbacks in order, and the channels that were closed. -/
structure OpResult where
  table : Table
  events : List NodeEvent
  closed : List Channel
deriving DecidableEq, Repr

/-- The message events the receive loop emits before it stops: it checks
`self.is_running`, reads, breaks on empty data, and on a decoded message
invokes the message callback; a decode exception ends the loop. -/
def loopEvents (is_running : Bool) (peer_username : PKey) :
    List ReadResult → List NodeEvent
  | [] => []
  | r :: rest =>
    if is_running then
      match r with
      | .eof => []
      | .frame none => []
      | .frame (some (c, t)) =>
        .messageReceived peer_username c t :: loopEvents is_running peer_username rest
    else []

/-- The `finally` block of `_listen_peer_messages`: when the peer is still
in the table its entry is deleted and the disconnected callback fires;
nothing is closed here. -/
def listenCleanup (table : Table) (peer_username : PKey) : OpResult :=
  if dictContains table peer_username then
    ⟨dictRemove table peer_username, [.peerDisconnected peer_username], []⟩
  else
    ⟨table, [], []⟩

/-- `_listen_peer_messages`: the receive loop over the reads it observes,
followed by its `finally` cleanup.  `reads` is the sequence of results the
socket delivers until the loop exits. -/
def listen_peer_messages (is_running : Bool) (table : Table) (peer_username : PKey)
    (reads : List ReadResult) : OpResult :=
  let fin := listenCleanup table peer_username
  ⟨fin.table, loopEvents is_running peer_username reads ++ fin.events, fin.closed⟩

/-- `_handle_peer_connection`: decode the first frame; when it is a
handshake frame, store the connection under `handshake.get("username")`,
fire the connected callback, send the ack and run the receive loop; in
every case the `finally` block closes this connection writer.  A decode
exception or a non-handshake type reaches `finally` with no other effect. -/
def handle_peer_connection (table : Table) (frame : FrameDecode) (ch : Channel)
    (reads : List ReadResult) (is_running : Bool) : OpResult :=
  match frame with
  | .fail => ⟨table, [], [ch]⟩
  | .ok type? username? =>
    if type? = some "handshake" then
      let table1 := dictInsert table username? ch
      let out := listen_peer_messages is_running table1 username? reads
      ⟨out.table, .peerConnected username? :: out.events, out.closed ++ [ch]⟩
    else
      ⟨table, [], [ch]⟩

/-- The completion step of `connect_to_peer` after the dial and the
handshake write: read the ack; when its type is handshake_ack, store the
connection under the target username, fire the connected callback and
return success (the receive loop is spawned as a background task);
otherwise return failure.  No channel is closed on either branch. -/
def connect_to_peer_complete (table : Table) (peer_username : String)
    (ackType : Option String) (ch : Channel) : OpResult × Bool :=
  if ackType = some "handshake_ack" then
    (⟨dictInsert table (some peer_username) ch,
      [.peerConnected (some peer_username)], []⟩, true)
  else
    (⟨table, [], []⟩, false)

/-- Outcome of `send_message`: the two distinct failure returns of the
source (peer absent from the table, or the write raised) and success. -/
inductive SendResult where
  | success
  | notConnected
  | sendError
deriving DecidableEq, Repr

/-- `send_message`: fail when the peer is not in `connected_peers`;
otherwise write the message frame on its channel, failing when the write
raises (`writeOk` tells which channels accept the write).  The table is
never mutated. -/
def send_message (table : Table) (peer_username : PKey)
    (writeOk : Channel → Bool) : SendResult × Table :=
  match dictGet table peer_username with
  | none => (.notConnected, table)
  | some ch => (if writeOk ch then .success else .sendError, table)

/-- `broadcast_message`: fail on an empty table; otherwise send to every
key of a snapshot `list(self.connected_peers.keys())`, collect the
results, and return their conjunction together with the result list. -/
def broadcast_message (table : Table) (writeOk : Channel → Bool) :
    Bool × List SendResult :=
  if table.isEmpty then (false, [])
  else
    let results := (dictKeys table).map
      (fun u => (send_message table u writeOk).1)
    (results.all (fun r => r = .success), results)

/-- The task and resource state of a node, beside the connection table. -/
structure NodeTasks where
  is_running : Bool
  http_client : Bool
  server_running : Bool
  heartbeat_running : Bool
  connected_peers : Table
deriving DecidableEq, Repr

/-- `start`: create the HTTP client, set `is_running`, spawn the server
task, then register with the tracker; when registration fails return
failure (the already-spawned server task is not cancelled); otherwise
spawn the heartbeat task and return success. -/
def start (s : NodeTasks) (registered : Bool) : NodeTasks × Bool :=
  let s1 : NodeTasks :=
    { s with http_client := true, is_running := true, server_running := true }
  if registered then
    ({ s1 with heartbeat_running := true }, true)
  else
    (s1, false)

/-- `stop`: clear `is_running`, attempt to unregister (any exception
swallowed), attempt to close every connection writer (exceptions
swallowed), clear the table, close the HTTP client, cancel the heartbeat
task.  The server task is not cancelled.  The outputs are the state and
the channels whose close was attempted; `unregisterOk` and `closeOk`
record which attempts would succeed and do not influence anything. -/
def stop (s : NodeTasks) (_unregisterOk : Bool) (_closeOk : Channel → Bool) :
    NodeTasks × List Channel :=
  ({ s with is_running := false, connected_peers := [],
            http_client := false, heartbeat_running := false },
   s.connected_peers.map Prod.snd)

/-! ## Tracker registry model (src/backend/tracker/main.py)

The peers table is a list of rows with unique usernames (the column is
declared unique).  Timestamps and durations are integers; the row id and
created_at columns play no part in any claim and are omitted.
-/

/-- One row of the peers table. -/
structure Peer where
  username : String
  host : String
  port : Int
  is_active : Bool
  last_heartbeat : Int
deriving DecidableEq, Repr

/-- The 404 raised by heartbeat and unregister on an unknown username. -/
inductive TrackerError where
  | notFound
deriving DecidableEq, Repr

/-- The usernames registered in the database. -/
def usernames (db : List Peer) : List String := db.map Peer.username

/-- The database invariant: the username column is unique. -/
def usernamesUnique (db : List Peer) : Prop := (usernames db).Nodup

instance (db : List Peer) : Decidable (usernamesUnique db) := by
  unfold usernamesUnique; infer_instance

/-- `register_peer`: select the row by username; update host, port,
activity and heartbeat when found, insert a fresh active row otherwise;
return the stored row. -/
def register_peer (db : List Peer) (username host : String) (port now : Int) :
    List Peer × Peer :=
  match db.find? (fun p => p.username = username) with
  | some p =>
    (db.map (fun q =>
       if q.username = username then
         { q with host := host, port := port, is_active := true,
                  last_heartbeat := now }
       else q),
     { p with host := host, port := port, is_active := true,
              last_heartbeat := now })
  | none =>
    let fresh : Peer :=
      { username := username, host := host, port := port,
        is_active := true, last_heartbeat := now }
    (db ++ [fresh], fresh)

/-- `heartbeat`: 404 when the username is unknown; otherwise refresh the
heartbeat and force the row active. -/
def heartbeat (db : List Peer) (username : String) (now : Int) :
    Except TrackerError (List Peer) :=
  match db.find? (fun p => p.username = username) with
  | none => .error .notFound
  | some _ =>
    .ok (db.map (fun q =>
      if q.username = username then
        { q with last_heartbeat := now, is_active := true }
      else q))

/-- `get_active_peers`: the rows with `is_active` set. -/
def get_active_peers (db : List Peer) : List Peer :=
  db.filter (fun p => p.is_active)

/-- `unregister_peer`: 404 when the username is unknown; otherwise clear
the activity flag of the row. -/
def unregister_peer (db : List Peer) (username : String) :
    Except TrackerError (List Peer) :=
  match db.find? (fun p => p.username = username) with
  | none => .error .notFound
  | some _ =>
    .ok (db.map (fun q =>
      if q.username = username then { q with is_active := false } else q))

/-- The selection predicate of `cleanup_inactive_peers`: active rows whose
last heartbeat is older than `now - thr`. -/
def stalePred (now thr : Int) (p : Peer) : Bool :=
  p.is_active && decide (p.last_heartbeat < now - thr)

/-- `cleanup_inactive_peers`: clear `is_active` on every selected row and
return how many rows were selected. -/
def cleanup_inactive_peers (db : List Peer) (now thr : Int) :
    List Peer × Nat :=
  (db.map (fun p => if stalePred now thr p then { p with is_active := false } else p),
   (db.filter (stalePred now thr)).length)

/-! ## Dict lemmas -/

theorem mem_dictKeys_insert {α β : Type} [DecidableEq α]
    (d : List (α × β)) (k x : α) (v : β) :
    x ∈ dictKeys (dictInsert d k v) ↔ x = k ∨ x ∈ dictKeys d := by
  induction d with
  | nil => simp [dictInsert, dictKeys]
  | cons hd tl ih =>
    obtain ⟨a, b⟩ := hd
    by_cases hak : a = k
    · subst hak
      simp [dictInsert, dictKeys]
    · simp only [dictInsert, if_neg hak, dictKeys, List.map_cons, List.mem_cons]
      rw [dictKeys] at ih
      rw [ih]
      tauto

theorem mem_dictKeys_remove {α β : Type} [DecidableEq α]
    (d : List (α × β)) (k x : α) :
    x ∈ dictKeys (dictRemove d k) → x ∈ dictKeys d := by
  induction d with
  | nil => simp [dictRemove]
  | cons hd tl ih =>
    obtain ⟨a, b⟩ := hd
    by_cases hak : a = k
    · subst hak
      simp only [dictRemove, if_pos rfl, dictKeys, List.map_cons, List.mem_cons]
      tauto
    · simp only [dictRemove, if_neg hak, dictKeys, List.map_cons, List.mem_cons]
      rw [dictKeys] at ih
      tauto

theorem keysUnique_insert {α β : Type} [DecidableEq α]
    (d : List (α × β)) (k : α) (v : β) (h : keysUnique d) :
    keysUnique (dictInsert d k v) := by
  induction d with
  | nil => simp [keysUnique, dictInsert, dictKeys]
  | cons hd tl ih =>
    obtain ⟨a, b⟩ := hd
    rw [keysUnique, dictKeys, List.map_cons, List.nodup_cons] at h
    by_cases hak : a = k
    · subst hak
      rw [keysUnique, dictInsert, if_pos rfl, dictKeys, List.map_cons,
        List.nodup_cons]
      exact h
    · rw [keysUnique, dictInsert, if_neg hak, dictKeys, List.map_cons,
        List.nodup_cons]
      constructor
      · intro hmem
        rcases (mem_dictKeys_insert tl k a v).mp hmem with h1 | h2
        · exact hak h1
        · exact h.1 h2
      · exact ih h.2

theorem keysUnique_remove {α β : Type} [DecidableEq α]
    (d : List (α × β)) (k : α) (h : keysUnique d) :
    keysUnique (dictRemove d k) := by
  induction d with
  | nil => simp [keysUnique, dictRemove, dictKeys]
  | cons hd tl ih =>
    obtain ⟨a, b⟩ := hd
    rw [keysUnique, dictKeys, List.map_cons, List.nodup_cons] at h
    by_cases hak : a = k
    · subst hak
      rw [dictRemove, if_pos rfl]
      exact h.2
    · rw [keysUnique, dictRemove, if_neg hak, dictKeys, List.map_cons,
        List.nodup_cons]
      exact ⟨fun hmem => h.1 (mem_dictKeys_remove tl k a hmem), ih h.2⟩

theorem dictGet_insert_self {α β : Type} [DecidableEq α]
    (d : List (α × β)) (k : α) (v : β) :
    dictGet (dictInsert d k v) k = some v := by
  induction d with
  | nil => simp [dictInsert, dictGet]
  | cons hd tl ih =>
    obtain ⟨a, b⟩ := hd
    by_cases hak : a = k
    · subst hak
      simp [dictInsert, dictGet]
    · simp [dictInsert, dictGet, hak, ih]

theorem dictGet_eq_none_of_not_mem {α β : Type} [DecidableEq α]
    (d : List (α × β)) (k : α) (h : k ∉ dictKeys d) :
    dictGet d k = none := by
  induction d with
  | nil => simp [dictGet]
  | cons hd tl ih =>
    obtain ⟨a, b⟩ := hd
    rw [dictKeys, List.map_cons, List.mem_cons] at h
    push_neg at h
    rw [dictGet, if_neg (fun hak => h.1 hak.symm)]
    exact ih h.2

theorem dictGet_remove_self {α β : Type} [DecidableEq α]
    (d : List (α × β)) (k : α) (h : keysUnique d) :
    dictGet (dictRemove d k) k = none := by
  induction d with
  | nil => simp [dictRemove, dictGet]
  | cons hd tl ih =>
    obtain ⟨a, b⟩ := hd
    rw [keysUnique, dictKeys, List.map_cons, List.nodup_cons] at h
    by_cases hak : a = k
    · subst hak
      rw [dictRemove, if_pos rfl]
      exact dictGet_eq_none_of_not_mem tl a h.1
    · rw [dictRemove, if_neg hak, dictGet, if_neg hak]
      exact ih h.2

theorem dictContains_iff_mem_keys {α β : Type} [DecidableEq α]
    (d : List (α × β)) (k : α) :
    dictContains d k = true ↔ k ∈ dictKeys d := by
  induction d with
  | nil => simp [dictContains, dictKeys]
  | cons hd tl ih =>
    obtain ⟨a, b⟩ := hd
    by_cases hak : a = k
    · subst hak
      simp [dictContains, dictKeys]
    · simp only [dictContains, if_neg hak, dictKeys, List.map_cons,
        List.mem_cons, ih]
      rw [dictKeys] at ih
      constructor
      · tauto
      · rintro (h1 | h2)
        · exact absurd h1.symm hak
        · exact h2

theorem dictGet_of_mem {α β : Type} [DecidableEq α]
    (d : List (α × β)) (p : α × β) (h : keysUnique d) (hmem : p ∈ d) :
    dictGet d p.1 = some p.2 := by
  induction d with
  | nil => simp at hmem
  | cons hd tl ih =>
    obtain ⟨a, b⟩ := hd
    rw [keysUnique, dictKeys, List.map_cons, List.nodup_cons] at h
    rcases List.mem_cons.mp hmem with h1 | h2
    · subst h1
      simp [dictGet]
    · rw [dictGet]
      by_cases hap : a = p.1
      · exfalso
        apply h.1
        rw [hap]
        exact List.mem_map.mpr ⟨p, h2, rfl⟩
      · rw [if_neg hap]
        exact ih h.2 h2

theorem loopEvents_no_disconnect (is_running : Bool) (u w : PKey)
    (reads : List ReadResult) :
    NodeEvent.peerDisconnected w ∉ loopEvents is_running u reads := by
  induction reads with
  | nil => simp [loopEvents]
  | cons r rest ih =>
    cases is_running with
    | false => simp [loopEvents]
    | true =>
      match r with
      | .eof => simp [loopEvents]
      | .frame none => simp [loopEvents]
      | .frame (some (c, t)) =>
        intro hmem
        simp [loopEvents] at hmem
        exact ih hmem

theorem dictContains_eq_isSome {α β : Type} [DecidableEq α]
    (d : List (α × β)) (k : α) :
    dictContains d k = (dictGet d k).isSome := by
  induction d with
  | nil => simp [dictContains, dictGet]
  | cons hd tl ih =>
    obtain ⟨a, b⟩ := hd
    by_cases hak : a = k
    · simp [dictContains, dictGet, hak]
    · simp [dictContains, dictGet, hak, ih]

theorem listen_closed (is_running : Bool) (table : Table) (u : PKey)
    (reads : List ReadResult) :
    (listen_peer_messages is_running table u reads).closed = [] := by
  unfold listen_peer_messages listenCleanup
  by_cases h : dictContains table u <;> simp [h]

/-! ## Claims about the peer node -/

/-- C1, counterexample: a first frame that decodes to a handshake frame
with no username field is not rejected; the node emits a peer connected
event for the null username, against the claim that no event fires. -/
theorem C1_counterexample :
    NodeEvent.peerConnected none ∈
      (handle_peer_connection [] (.ok (some "handshake") none) ⟨0⟩ [.eof]
        true).events := by
  decide

/-- C1 (amended): an inbound first frame that fails to decode or whose
type field is not handshake makes the node close the connection with no
side effects (table unchanged, no event); but a handshake frame with a
missing username field is accepted as a handshake from the null username,
whose connected event fires first. -/
theorem C1_invalid_first_frame (table : Table) (ch : Channel)
    (reads : List ReadResult) (is_running : Bool) (frame : FrameDecode)
    (h : frame = .fail ∨
      ∃ t u, frame = .ok t u ∧ t ≠ some "handshake") :
    handle_peer_connection table frame ch reads is_running =
      ⟨table, [], [ch]⟩ ∧
    (handle_peer_connection table (.ok (some "handshake") none) ch reads
      is_running).events.head? = some (.peerConnected none) := by
  constructor
  · rcases h with h | ⟨t, u, rfl, ht⟩
    · subst h; rfl
    · simp [handle_peer_connection, ht]
  · simp [handle_peer_connection]

/-- C1, witness for the amended theorem at a concrete wrong-type frame. -/
theorem C1_witness :
    handle_peer_connection [] (.ok (some "message") (some "alice")) ⟨1⟩ []
      true = ⟨[], [], [⟨1⟩]⟩ ∧
    (handle_peer_connection [] (.ok (some "handshake") none) ⟨1⟩ []
      true).events.head? = some (.peerConnected none) :=
  C1_invalid_first_frame [] ⟨1⟩ [] true _
    (Or.inr ⟨some "message", some "alice", rfl, by decide⟩)

/-- C2, counterexample: an inbound handshake from a username that already
has an entry with channel 1 stores the new channel 2 but never closes
channel 1, against the claim that the old channel is closed before the
replacement is recorded. -/
theorem C2_counterexample :
    Channel.mk 1 ∉
      (handle_peer_connection [(some "x", ⟨1⟩)]
        (.ok (some "handshake") (some "x")) ⟨2⟩ [.eof] true).closed := by
  decide

/-- C2 (amended): the connection table keeps at most one entry per
username — key uniqueness is preserved by the insertion both handshake
completions perform and by the deletion of the receive-loop cleanup, and
after a completed handshake the username maps to the new channel — but the
old entry channel is not closed: the outbound completion closes nothing
and the inbound path closes only the newly accepted channel. -/
theorem C2_unique_replace (table : Table) (u : PKey) (x : String)
    (ch old : Channel) (reads : List ReadResult) (is_running : Bool)
    (h : keysUnique table) :
    keysUnique (dictInsert table u ch) ∧
    keysUnique (dictRemove table u) ∧
    dictGet (dictInsert table u ch) u = some ch ∧
    (connect_to_peer_complete table x (some "handshake_ack") ch).1.table =
      dictInsert table (some x) ch ∧
    (connect_to_peer_complete table x (some "handshake_ack") ch).1.closed
      = [] ∧
    (old ≠ ch →
      old ∉ (handle_peer_connection table (.ok (some "handshake") u) ch
        reads is_running).closed) := by
  refine ⟨keysUnique_insert table u ch h, keysUnique_remove table u h,
    dictGet_insert_self table u ch, rfl, rfl, ?_⟩
  intro hne hmem
  simp [handle_peer_connection, listen_closed] at hmem
  exact hne hmem

/-- C2, witness for the amended theorem on a one-entry table being
replaced. -/
theorem C2_witness :
    keysUnique (dictInsert [((some "x" : PKey), Channel.mk 1)] (some "x")
      (Channel.mk 2)) ∧
    dictGet (dictInsert [((some "x" : PKey), Channel.mk 1)] (some "x")
      (Channel.mk 2)) (some "x") = some (Channel.mk 2) ∧
    Channel.mk 1 ∉
      (handle_peer_connection [((some "x" : PKey), Channel.mk 1)]
        (.ok (some "handshake") (some "x")) (Channel.mk 2) [.eof]
        true).closed := by
  have h := C2_unique_replace [((some "x" : PKey), Channel.mk 1)]
    (some "x") "x" (Channel.mk 2) (Channel.mk 1) [.eof] true (by decide)
  exact ⟨h.1, h.2.2.1, h.2.2.2.2.2 (by decide)⟩

/-- C5, counterexample: the receive loop of an established connection
(here the standalone loop an outbound connection spawns) observes end of
stream and terminates without closing any channel, against the claim that
it closes the channel. -/
theorem C5_counterexample :
    (listen_peer_messages true [(some "B", ⟨5⟩)] (some "B") [.eof]).closed
      = [] := by
  decide

/-- C5 (amended): when the receive loop of a connection that is still in
the table observes end of stream or a decode failure it terminates,
removes the entry, emits exactly one peer disconnected event for that
username, and a second cleanup is a no-op; but the loop itself closes no
channel (inbound channels are closed by the surrounding connection
handler after the loop returns; outbound channels are left open). -/
theorem C5_receive_loop_cleanup (table : Table) (u : PKey) (ch : Channel)
    (reads : List ReadResult) (h : keysUnique table)
    (hget : dictGet table u = some ch)
    (hterm : reads.any isTerminator = true) :
    dictGet (listen_peer_messages true table u reads).table u = none ∧
    ((listen_peer_messages true table u reads).events.count
      (NodeEvent.peerDisconnected u)) = 1 ∧
    (listen_peer_messages true table u reads).closed = [] ∧
    listenCleanup (listen_peer_messages true table u reads).table u =
      ⟨(listen_peer_messages true table u reads).table, [], []⟩ := by
  have hcon : dictContains table u = true := by
    rw [dictContains_eq_isSome, hget]; rfl
  have htab : (listen_peer_messages true table u reads).table =
      dictRemove table u := by
    simp [listen_peer_messages, listenCleanup, hcon]
  have hnone : dictGet (dictRemove table u) u = none :=
    dictGet_remove_self table u h
  refine ⟨htab ▸ hnone, ?_, listen_closed true table u reads, ?_⟩
  · have hev : (listen_peer_messages true table u reads).events =
        loopEvents true u reads ++ [.peerDisconnected u] := by
      simp [listen_peer_messages, listenCleanup, hcon]
    rw [hev, List.count_append]
    rw [List.count_eq_zero_of_not_mem (loopEvents_no_disconnect true u u reads)]
    simp
  · have hcon2 : dictContains (listen_peer_messages true table u
        reads).table u = false := by
      simp [dictContains_eq_isSome, htab, hnone]
    simp [listenCleanup, hcon2]

/-- C5, witness for the amended theorem on a concrete connection hitting
end of stream. -/
theorem C5_witness :
    dictGet (listen_peer_messages true [((some "B" : PKey), Channel.mk 5)]
      (some "B") [.eof]).table (some "B") = none ∧
    ((listen_peer_messages true [((some "B" : PKey), Channel.mk 5)]
      (some "B") [.eof]).events.count
      (NodeEvent.peerDisconnected (some "B"))) = 1 := by
  have h := C5_receive_loop_cleanup [((some "B" : PKey), Channel.mk 5)]
    (some "B") (Channel.mk 5) [.eof] (by decide) (by decide) (by decide)
  exact ⟨h.1, h.2.1⟩

/-- C3, counterexample: starting a fresh node whose tracker registration
fails leaves the server task (the listening socket) running, against the
claim that no listening socket is open after a failed start. -/
theorem C3_counterexample :
    ((start ⟨false, false, false, false, []⟩ false).1).server_running
      = true := rfl

/-- C3 (amended): when registration fails, start returns failure and the
heartbeat loop has not been started, but the resources acquired before
the registration attempt are not released: the server task keeps
listening, the HTTP client stays open and the running flag stays set. -/
theorem C3_start_registration_failure (s : NodeTasks) :
    (start s false).2 = false ∧
    (start s false).1.heartbeat_running = s.heartbeat_running ∧
    (start s false).1.server_running = true ∧
    (start s false).1.is_running = true ∧
    (start s false).1.http_client = true ∧
    (start s false).1.connected_peers = s.connected_peers :=
  ⟨rfl, rfl, rfl, rfl, rfl, rfl⟩

/-- C4, counterexample: stopping a node whose server task is running
leaves the server task (the listening socket) running, against the claim
that stop releases the listening socket. -/
theorem C4_counterexample :
    NodeTasks.server_running
      (stop ⟨true, true, true, true, []⟩ true (fun _ => true)).1 = true := rfl

/-- C4 (amended): stop is idempotent and best-effort — its outcome is
independent of unregister or close failures, it attempts a close on every
connection, leaves the table empty, cancels the heartbeat loop and closes
the HTTP client, and a second call yields the same final state — but it
does not release the listening socket: the server task is never
cancelled. -/
theorem C4_stop_best_effort (s : NodeTasks) (u1 u2 : Bool)
    (c1 c2 : Channel → Bool) :
    stop s u1 c1 = stop s u2 c2 ∧
    (stop s u1 c1).1.connected_peers = [] ∧
    (stop s u1 c1).1.heartbeat_running = false ∧
    (stop s u1 c1).1.is_running = false ∧
    (stop s u1 c1).1.http_client = false ∧
    (stop s u1 c1).2 = s.connected_peers.map Prod.snd ∧
    (stop s u1 c1).1.server_running = s.server_running ∧
    stop (stop s u1 c1).1 u2 c2 = ((stop s u1 c1).1, []) :=
  ⟨rfl, rfl, rfl, rfl, rfl, rfl, rfl, rfl⟩

/-- C6: broadcast fails on an empty table; otherwise it produces one send
result per table entry (no short-circuit) and returns true exactly when
the write succeeded on every connected channel. -/
theorem C6_broadcast (table : Table) (writeOk : Channel → Bool)
    (h : keysUnique table) :
    (table = [] → broadcast_message table writeOk = (false, [])) ∧
    (broadcast_message table writeOk).2.length = table.length ∧
    (table ≠ [] →
      ((broadcast_message table writeOk).1 = true ↔
        ∀ p ∈ table, writeOk p.2 = true)) := by
  refine ⟨?_, ?_, ?_⟩
  · intro he; subst he; rfl
  · by_cases he : table.isEmpty
    · rw [List.isEmpty_iff] at he
      subst he; rfl
    · simp [broadcast_message, he, dictKeys]
  · intro hne
    have he : table.isEmpty = false := by
      simp [List.isEmpty_iff, hne]
    simp only [broadcast_message, he, Bool.false_eq_true, if_false,
      List.all_eq_true, List.mem_map, decide_eq_true_eq]
    constructor
    · intro hall p hp
      have := hall ((send_message table p.1 writeOk).1)
        ⟨p.1, List.mem_map.mpr ⟨p, hp, rfl⟩, rfl⟩
      rw [send_message, dictGet_of_mem table p h hp] at this
      by_cases hw : writeOk p.2 = true
      · exact hw
      · simp [hw] at this
    · rintro hall r ⟨k, hk, rfl⟩
      rcases List.mem_map.mp hk with ⟨p, hp, rfl⟩
      simp [send_message, dictGet_of_mem table p h hp, hall p hp]

/-- C6, witness on a concrete two-entry table where every write
succeeds. -/
theorem C6_witness :
    (broadcast_message
      [((some "a" : PKey), Channel.mk 1), (some "b", Channel.mk 2)]
      (fun _ => true)).2.length =
      ([((some "a" : PKey), Channel.mk 1),
        (some "b", Channel.mk 2)] : Table).length ∧
    ((broadcast_message
      [((some "a" : PKey), Channel.mk 1), (some "b", Channel.mk 2)]
      (fun _ => true)).1 = true ↔
      ∀ p ∈ ([((some "a" : PKey), Channel.mk 1),
        (some "b", Channel.mk 2)] : Table), (fun _ => true) p.2 = true) := by
  have h := C6_broadcast
    [((some "a" : PKey), Channel.mk 1), (some "b", Channel.mk 2)]
    (fun _ => true) (by decide)
  exact ⟨h.2.1, h.2.2 (by decide)⟩

/-- C7: sending to a username with no connection in the table returns the
not connected failure and leaves the table unchanged. -/
theorem C7_send_not_connected (table : Table) (u : PKey)
    (writeOk : Channel → Bool) (h : dictGet table u = none) :
    send_message table u writeOk = (.notConnected, table) := by
  unfold send_message
  rw [h]

/-- C7, witness: sending to carol on a table that only knows alice. -/
theorem C7_witness :
    send_message [((some "alice" : PKey), Channel.mk 1)] (some "carol")
      (fun _ => true) =
      (.notConnected, [((some "alice" : PKey), Channel.mk 1)]) :=
  C7_send_not_connected [((some "alice" : PKey), Channel.mk 1)]
    (some "carol") (fun _ => true) (by decide)

/-! ## Registry lemmas -/

theorem map_congr_mem {α β : Type} (l : List α) (f g : α → β)
    (h : ∀ a ∈ l, f a = g a) : l.map f = l.map g := by
  induction l with
  | nil => rfl
  | cons x xs ih =>
    simp only [List.map_cons, h x (List.mem_cons_self x xs)]
    rw [ih (fun a ha => h a (List.mem_cons_of_mem x ha))]

theorem usernames_map_preserving (db : List Peer) (f : Peer → Peer)
    (h : ∀ q, (f q).username = q.username) :
    usernames (db.map f) = usernames db := by
  unfold usernames
  rw [List.map_map]
  exact map_congr_mem db _ _ (fun a _ => h a)

theorem set_inactive_eq (p : Peer) (h : p.is_active = false) :
    { p with is_active := false } = p := by
  obtain ⟨u, ho, po, ia, lh⟩ := p
  cases ia with
  | false => rfl
  | true => exact absurd h (by simp)

theorem sweepOne_eq (now thr : Int) (p : Peer) :
    (if stalePred now thr p then { p with is_active := false } else p) =
    { p with is_active :=
        p.is_active && !(decide (now - p.last_heartbeat > thr)) } := by
  obtain ⟨u, ho, po, ia, lh⟩ := p
  have hd : decide (thr < (now : Int) - lh) = decide (lh < now - thr) := by
    apply decide_eq_decide.mpr
    omega
  simp only [stalePred, gt_iff_lt, hd]
  cases ia with
  | false => simp
  | true =>
    cases hc : decide (lh < now - thr) with
    | false => simp [hc]
    | true => simp [hc]

theorem stalePred_sweepOne (now thr : Int) (p : Peer) :
    stalePred now thr
      (if stalePred now thr p then { p with is_active := false } else p)
      = false := by
  by_cases h : stalePred now thr p = true
  · rw [if_pos h]
    simp [stalePred]
  · rw [if_neg h]
    exact Bool.eq_false_iff.mpr h

/-! ## Claims about the registry -/

/-- C8: the sweep turns off exactly the active rows whose heartbeat is
older than the threshold (all other fields untouched), returns how many
rows it selected, and a second sweep at the same instant changes nothing
and reports zero. -/
theorem C8_sweep (db : List Peer) (now thr : Int) :
    (cleanup_inactive_peers db now thr).1 =
      db.map (fun p =>
        { p with is_active :=
            p.is_active && !(decide (now - p.last_heartbeat > thr)) }) ∧
    (cleanup_inactive_peers db now thr).2 =
      (db.filter (fun p =>
        p.is_active && decide (now - p.last_heartbeat > thr))).length ∧
    cleanup_inactive_peers (cleanup_inactive_peers db now thr).1 now thr =
      ((cleanup_inactive_peers db now thr).1, 0) := by
  have hstale : ∀ p : Peer, stalePred now thr p =
      (p.is_active && decide (now - p.last_heartbeat > thr)) := by
    intro p
    unfold stalePred
    have hd : decide (p.last_heartbeat < now - thr) =
        decide (now - p.last_heartbeat > thr) := by
      apply decide_eq_decide.mpr
      omega
    rw [hd]
  refine ⟨?_, ?_, ?_⟩
  · unfold cleanup_inactive_peers
    exact map_congr_mem db _ _ (fun p _ => sweepOne_eq now thr p)
  · unfold cleanup_inactive_peers
    rw [List.filter_congr (fun p _ => hstale p)]
  · have hnostale : ∀ q ∈ (cleanup_inactive_peers db now thr).1,
        stalePred now thr q = false := by
      intro q hq
      rcases List.mem_map.mp hq with ⟨p, _, rfl⟩
      exact stalePred_sweepOne now thr p
    have hmap : (cleanup_inactive_peers
        (cleanup_inactive_peers db now thr).1 now thr).1 =
        (cleanup_inactive_peers db now thr).1 := by
      have hid : ∀ q ∈ (cleanup_inactive_peers db now thr).1,
          (if stalePred now thr q then { q with is_active := false }
           else q) = id q := by
        intro q hq
        simp [hnostale q hq]
      show List.map _ _ = _
      rw [map_congr_mem _ _ _ hid, List.map_id]
    have hcnt : (cleanup_inactive_peers
        (cleanup_inactive_peers db now thr).1 now thr).2 = 0 := by
      show (List.filter _ _).length = 0
      rw [List.length_eq_zero, List.filter_eq_nil_iff]
      intro q hq
      simp [hnostale q hq]
    rw [Prod.ext_iff]
    exact ⟨hmap, hcnt⟩

/-- C9: no registry operation removes a row — registration preserves or
extends the username set, heartbeat, sweep and unregister preserve it
exactly, unregister touches only the activity flag, 404s on an unknown
username, and is the identity on a row that is already inactive. -/
theorem C9_registry_no_removal (db : List Peer) (u host : String)
    (port now thr : Int) :
    (∀ x ∈ usernames db,
      x ∈ usernames (register_peer db u host port now).1) ∧
    (∀ db2, heartbeat db u now = .ok db2 →
      usernames db2 = usernames db) ∧
    usernames (cleanup_inactive_peers db now thr).1 = usernames db ∧
    (∀ q ∈ (cleanup_inactive_peers db now thr).1, ∃ p ∈ db,
      q.username = p.username ∧ q.host = p.host ∧ q.port = p.port ∧
      q.last_heartbeat = p.last_heartbeat) ∧
    (∀ db2, unregister_peer db u = .ok db2 →
      usernames db2 = usernames db ∧
      ∀ q ∈ db2, ∃ p ∈ db,
        q.username = p.username ∧ q.host = p.host ∧ q.port = p.port ∧
        q.last_heartbeat = p.last_heartbeat) ∧
    (u ∉ usernames db → unregister_peer db u = .error .notFound) ∧
    ((∀ p ∈ db, p.username = u → p.is_active = false) →
      u ∈ usernames db → unregister_peer db u = .ok db) := by
  refine ⟨?_, ?_, ?_, ?_, ?_, ?_, ?_⟩
  · intro x hx
    unfold register_peer
    cases hf : db.find? (fun p => p.username = u) with
    | some p =>
      simp only []
      rw [usernames_map_preserving]
      · exact hx
      · intro q
        by_cases hq : q.username = u <;> simp [hq]
    | none =>
      simp only [usernames, List.map_append, List.mem_append]
      exact Or.inl hx
  · intro db2 hdb2
    unfold heartbeat at hdb2
    cases hf : db.find? (fun p => p.username = u) with
    | none => rw [hf] at hdb2; cases hdb2
    | some p =>
      rw [hf] at hdb2
      cases hdb2
      rw [usernames_map_preserving]
      intro q
      by_cases hq : q.username = u <;> simp [hq]
  · unfold cleanup_inactive_peers
    rw [usernames_map_preserving]
    intro q
    by_cases hq : stalePred now thr q <;> simp [hq]
  · intro q hq
    rcases List.mem_map.mp hq with ⟨p, hp, rfl⟩
    refine ⟨p, hp, ?_⟩
    by_cases hs : stalePred now thr p <;> simp [hs]
  · intro db2 hdb2
    unfold unregister_peer at hdb2
    cases hf : db.find? (fun p => p.username = u) with
    | none => rw [hf] at hdb2; cases hdb2
    | some p =>
      rw [hf] at hdb2
      cases hdb2
      constructor
      · rw [usernames_map_preserving]
        intro q
        by_cases hq : q.username = u <;> simp [hq]
      · intro q hq
        rcases List.mem_map.mp hq with ⟨p2, hp2, rfl⟩
        refine ⟨p2, hp2, ?_⟩
        by_cases hq2 : p2.username = u <;> simp [hq2]
  · intro hu
    unfold unregister_peer
    have hf : db.find? (fun p => p.username = u) = none := by
      rw [List.find?_eq_none]
      intro p hp
      simp only [decide_eq_true_eq]
      intro hpu
      exact hu (List.mem_map.mpr ⟨p, hp, hpu⟩)
    rw [hf]
  · intro hinact hu
    rcases List.mem_map.mp hu with ⟨p0, hp0, hp0u⟩
    unfold unregister_peer
    cases hf : db.find? (fun p => p.username = u) with
    | none =>
      exfalso
      have := List.find?_eq_none.mp hf p0 hp0
      simp only [decide_eq_true_eq] at this
      exact this hp0u
    | some p1 =>
      simp only [Except.ok.injEq]
      have : ∀ q ∈ db,
          (if q.username = u then { q with is_active := false } else q)
            = id q := by
        intro q hq
        by_cases hqu : q.username = u
        · simp only [if_pos hqu, id]
          exact set_inactive_eq q (hinact q hq hqu)
        · simp [hqu]
      rw [map_congr_mem _ _ _ this, List.map_id]

/-- C9, witness: on a two-row database, unregister of an unknown name
404s, unregister of the already-inactive bob changes nothing, and a
registration keeps alice registered. -/
theorem C9_witness :
    unregister_peer [⟨"bob", "h", 1, false, 0⟩, ⟨"alice", "h", 2, true, 5⟩]
      "ghost" = .error .notFound ∧
    unregister_peer [⟨"bob", "h", 1, false, 0⟩, ⟨"alice", "h", 2, true, 5⟩]
      "bob" = .ok [⟨"bob", "h", 1, false, 0⟩, ⟨"alice", "h", 2, true, 5⟩] ∧
    "alice" ∈ usernames
      (register_peer [⟨"bob", "h", 1, false, 0⟩, ⟨"alice", "h", 2, true, 5⟩]
        "alice" "h2" 3 9).1 := by
  refine ⟨?_, ?_, ?_⟩
  · exact (C9_registry_no_removal
      [⟨"bob", "h", 1, false, 0⟩, ⟨"alice", "h", 2, true, 5⟩]
      "ghost" "h" 0 0 0).2.2.2.2.2.1 (by decide)
  · exact (C9_registry_no_removal
      [⟨"bob", "h", 1, false, 0⟩, ⟨"alice", "h", 2, true, 5⟩]
      "bob" "h" 0 0 0).2.2.2.2.2.2 (by decide) (by decide)
  · exact (C9_registry_no_removal
      [⟨"bob", "h", 1, false, 0⟩, ⟨"alice", "h", 2, true, 5⟩]
      "alice" "h2" 3 9 0).1 "alice" (by decide)

/-- C10: registration accepts any username string, the empty string
included — the stored row carries the given host, port and timestamp with
the activity flag forced on, every row holding that username is updated
the same way, and the username (in particular the empty one) is then
visible among the active peers. -/
theorem C10_register_no_validation (db : List Peer) (u host : String)
    (port now : Int) :
    (register_peer db u host port now).2.username = u ∧
    (register_peer db u host port now).2.host = host ∧
    (register_peer db u host port now).2.port = port ∧
    (register_peer db u host port now).2.is_active = true ∧
    (register_peer db u host port now).2.last_heartbeat = now ∧
    (∀ q ∈ (register_peer db u host port now).1, q.username = u →
      q.host = host ∧ q.port = port ∧ q.is_active = true ∧
      q.last_heartbeat = now) ∧
    u ∈ (get_active_peers (register_peer db u host port now).1).map
      Peer.username := by
  unfold register_peer
  cases hf : db.find? (fun p => p.username = u) with
  | none =>
    refine ⟨rfl, rfl, rfl, rfl, rfl, ?_, ?_⟩
    · intro q hq hqu
      rcases List.mem_append.mp hq with hq1 | hq2
      · exfalso
        have := List.find?_eq_none.mp hf q hq1
        simp only [decide_eq_true_eq] at this
        exact this hqu
      · rw [List.mem_singleton.mp hq2]
        exact ⟨rfl, rfl, rfl, rfl⟩
    · apply List.mem_map.mpr
      refine ⟨⟨u, host, port, true, now⟩, ?_, rfl⟩
      rw [get_active_peers, List.mem_filter]
      exact ⟨List.mem_append.mpr (Or.inr (List.mem_singleton.mpr rfl)),
        rfl⟩
  | some p0 =>
    have hp0 : p0 ∈ db := List.mem_of_find?_eq_some hf
    have hp0u : p0.username = u := by
      have := List.find?_some hf
      simpa using this
    refine ⟨hp0u, rfl, rfl, rfl, rfl, ?_, ?_⟩
    · intro q hq hqu
      rcases List.mem_map.mp hq with ⟨p, hp, rfl⟩
      by_cases hpu : p.username = u
      · simp [hpu]
      · simp only [if_neg hpu] at hqu ⊢
        exact absurd hqu hpu
    · apply List.mem_map.mpr
      refine ⟨Peer.mk p0.username host port true now, ?_, hp0u⟩
      rw [get_active_peers, List.mem_filter]
      constructor
      · apply List.mem_map.mpr
        refine ⟨p0, hp0, ?_⟩
        rw [if_pos hp0u]
      · rfl

end ChatP2P
